import Mathlib

/-!
Verification development for the calwatch calendar-alert daemon.

The Go sources are shallowly embedded: instants and durations are integers
(seconds in the event/alert model, nanoseconds in the scheduler/config model,
matching Go's `time.Duration` granularity where it matters), fallible Go
functions return `Option`, and Go loops become structural recursions.  Each
definition names the Go function it embeds.
-/

namespace CalWatch

/-- Source of an alert, mirroring `storage.AlertSource` in
`internal/storage/event.go`: `config` is `AlertSourceConfig` (from
`automatic_alerts` configuration); `valarm` is `AlertSourceVALARM` (from an ICS
VALARM component). -/
inductive AlertSource where
  | config
  | valarm
deriving DecidableEq, Repr

/-- Unified alert record, mirroring `storage.Alert` (`internal/storage/event.go`).
The `Offset` duration is modelled in seconds.  The `Description` and `Action`
fields of the Go struct do not participate in any claim and are elided. -/
structure Alert where
  offset : Int
  important : Bool
  source : AlertSource
deriving DecidableEq, Repr

/-- Test used by the first deduplication pass: mirrors the Go comparison
`alert.Source == AlertSourceVALARM` in `DeduplicateAlerts`. -/
def isIntrinsicAlert (a : Alert) : Bool :=
  match a.source with
  | .valarm => true
  | .config => false

/-- Test used by the second deduplication pass: mirrors the Go comparison
`alert.Source == AlertSourceConfig` in `DeduplicateAlerts`. -/
def isConfigAlert (a : Alert) : Bool :=
  match a.source with
  | .valarm => false
  | .config => true

/-- One pass of `storage.DeduplicateAlerts` (`internal/storage/event.go`,
lines 69-94).  The Go function walks the input slice twice with a shared
`seen : map[time.Duration]bool` and a shared `unique` slice; `dedupPass keep l
seen unique` is one such walk, keeping an alert when `keep` accepts it and its
offset has not been seen, and returning the final `seen` set and `unique`
slice. -/
def dedupPass (keep : Alert → Bool) : List Alert → List Int → List Alert → List Int × List Alert
  | [], seen, unique => (seen, unique)
  | a :: rest, seen, unique =>
    if keep a ∧ a.offset ∉ seen then dedupPass keep rest (a.offset :: seen) (unique ++ [a])
    else dedupPass keep rest seen unique

/-- Embedding of `storage.DeduplicateAlerts`: VALARM alerts are processed
first, then config alerts, each added only when no alert with the same offset
was added before. -/
def deduplicateAlerts (alerts : List Alert) : List Alert :=
  (dedupPass isConfigAlert alerts
    (dedupPass isIntrinsicAlert alerts [] []).1
    (dedupPass isIntrinsicAlert alerts [] []).2).2

/-- Embedding of `CalendarEvent.GetAllAlerts` (`internal/storage/event.go`,
lines 238-253): the intrinsic VALARM alerts are appended first, then the
calendar's automatic alerts, and the concatenation is deduplicated.
`automaticAlerts` stands for `e.Calendar.GetAutomaticAlerts()` (the empty list
models a nil calendar). -/
def getAllAlerts (intrinsicAlerts automaticAlerts : List Alert) : List Alert :=
  deduplicateAlerts (intrinsicAlerts ++ automaticAlerts)

/-- Number of entries of an alert list whose offset is `t` (proof-side counting
helper). -/
def countOffset (t : Int) : List Alert → Nat
  | [] => 0
  | a :: rest => (if a.offset = t then 1 else 0) + countOffset t rest

/-! ### Occurrence computation (`occurrencesWithin`, `OccursOn`)

Instants in this section are seconds on an integer timeline.  The event's
recurrence expansion (`CalendarEvent.getEventOccurrences`, which delegates to
`Recurrence.OccurredWithin` or to the inclusive-bounds base-occurrence check)
is abstracted as a function `eventOccs : Int → Int → List Int` from a search
range to the event instants inside it; the theorems hypothesise the contract
the Go recurrence engines implement (every returned instant lies in the
inclusive range, and each occurrence instant is returned once). -/

/-- One minute, in seconds (`time.Minute` where the model works in seconds). -/
def minuteSec : Int := 60

/-- One day, in seconds (`24 * time.Hour`). -/
def daySec : Int := 86400

/-- Embedding of `t.Truncate(24 * time.Hour)`: Go truncates the absolute
(UTC-based) time down to a multiple of 24 hours; on the integer timeline this
is flooring division by the day length. -/
def truncateDaySec (t : Int) : Int := t / daySec * daySec

/-- Alert occurrence record, mirroring `storage.Occurrence`
(`internal/storage/event.go`).  The `EventData` back reference does not
participate in any claim and is elided. -/
structure Occurrence where
  eventTime : Int
  alertTime : Int
  offset : Int
  important : Bool
  late : Bool
deriving DecidableEq, Repr

/-- Embedding of `CalendarEvent.getMaxAlertOffset` (`internal/storage/event.go`,
lines 317-327): fold over the alerts keeping the largest offset, starting from
the zero duration. -/
def getMaxAlertOffset (alerts : List Alert) : Int :=
  alerts.foldl (fun m a => if a.offset > m then a.offset else m) 0

/-- The occurrence record built in the inner loop of
`CalendarEvent.occurrencesWithin` for event instant `eventTime` and alert `a`:
`AlertTime = EventTime - Offset` and `Late = AlertTime < end - time.Minute`. -/
def mkOccurrence (endT eventTime : Int) (a : Alert) : Occurrence :=
  { eventTime := eventTime
    alertTime := eventTime - a.offset
    offset := a.offset
    important := a.important
    late := decide (eventTime - a.offset < endT - minuteSec) }

/-- Inner loop of `CalendarEvent.occurrencesWithin` over the alert list for a
fixed event instant: yield an occurrence when the alert time falls in the
half-open-left target range, `alertTime.After(start) && (alertTime.Before(end)
|| alertTime.Equal(end))`. -/
def alertOccurrences (alerts : List Alert) (startT endT eventTime : Int) : List Occurrence :=
  alerts.filterMap fun a =>
    if startT < eventTime - a.offset ∧ eventTime - a.offset ≤ endT then
      some (mkOccurrence endT eventTime a)
    else none

/-- Outer loop of `CalendarEvent.occurrencesWithin` over the event instants. -/
def occLoop (alerts : List Alert) (startT endT : Int) : List Int → List Occurrence
  | [] => []
  | t :: rest => alertOccurrences alerts startT endT t ++ occLoop alerts startT endT rest

/-- Embedding of `CalendarEvent.occurrencesWithin` (`internal/storage/event.go`,
lines 374-420): return early when no alert is configured, widen the event
search range to `end.Add(maxOffset)`, enumerate event instants there, and
yield one occurrence per (event instant, alert) pair whose alert time lies in
`(start, end]`. -/
def occurrencesWithin (alerts : List Alert) (eventOccs : Int → Int → List Int)
    (startT endT : Int) : List Occurrence :=
  if alerts.isEmpty then []
  else occLoop alerts startT endT (eventOccs startT (endT + getMaxAlertOffset alerts))

/-- Number of copies of occurrence `o` in a list (proof-side counting
helper). -/
def countOcc (o : Occurrence) : List Occurrence → Nat
  | [] => 0
  | x :: rest => (if x = o then 1 else 0) + countOcc o rest

/-- Embedding of `CalendarEvent.OccursOn` (`internal/storage/event.go`, lines
271-302).  The event-side check `e.eventOccursOn(date)` is abstracted as the
boolean `eventOccursOnDate`; the alert-side check truncates the date to a
24-hour boundary, widens the search by the maximal alert offset, and scans the
computed occurrences for an alert time with `AlertTime.After(dayStart) &&
AlertTime.Before(dayEnd)`. -/
def occursOn (eventOccursOnDate : Bool) (alerts : List Alert)
    (eventOccs : Int → Int → List Int) (date : Int) : Bool :=
  if eventOccursOnDate then true
  else if alerts.isEmpty then false
  else
    let dayStart := truncateDaySec date
    let dayEnd := dayStart + daySec
    let searchEnd := dayEnd + getMaxAlertOffset alerts
    (occurrencesWithin alerts eventOccs dayStart searchEnd).any fun occ =>
      decide (dayStart < occ.alertTime ∧ occ.alertTime < dayEnd)

/-! ### Event records, alert state, and the in-memory event store -/

/-- Per-offset alert state, mirroring `storage.AlertState`
(`internal/storage/event.go`): `AlertPending`, `AlertSent`, `AlertSnoozed`. -/
inductive AlertState where
  | pending
  | sent
  | snoozed
deriving DecidableEq, Repr

/-- Embedding of `storage.CalendarEvent` (`internal/storage/event.go`).  The
per-offset alert-state map `alertStates : map[time.Duration]AlertState` is an
association list keyed by offset.  The `Recurrence`, `Timezone` and `Calendar`
pointer fields do not participate in the store/alert-state claims and are
elided; `exDates` starts empty as in the constructor. -/
structure CalendarEvent where
  uid : String
  summary : String
  description : String
  location : String
  startTime : Int
  endTime : Int
  exDates : List Int
  intrinsicAlerts : List Alert
  alertStates : List (Int × AlertState)
deriving DecidableEq, Repr

/-- Embedding of `storage.NewCalendarEvent` (`internal/storage/event.go`, lines
161-180): all descriptive fields are copied, `ExDates` is the empty slice, and
`alertStates` is a freshly made (empty) map. -/
def newCalendarEvent (uid summary description location : String)
    (startTime endTime : Int) (intrinsicAlerts : List Alert) : CalendarEvent :=
  { uid := uid
    summary := summary
    description := description
    location := location
    startTime := startTime
    endTime := endTime
    exDates := []
    intrinsicAlerts := intrinsicAlerts
    alertStates := [] }

/-- Lookup in the per-offset alert-state association list. -/
def lookupState : List (Int × AlertState) → Int → Option AlertState
  | [], _ => none
  | (k, v) :: rest, off => if k = off then some v else lookupState rest off

/-- Map update for the per-offset alert-state association list. -/
def insertState : List (Int × AlertState) → Int → AlertState → List (Int × AlertState)
  | [], off, st => [(off, st)]
  | (k, v) :: rest, off, st =>
    if k = off then (off, st) :: rest else (k, v) :: insertState rest off st

/-- Embedding of `CalendarEvent.GetAlertState` (`internal/storage/event.go`,
lines 449-458): return the stored state for the offset, defaulting to
`AlertPending` when the offset has no entry. -/
def getAlertState (e : CalendarEvent) (off : Int) : AlertState :=
  (lookupState e.alertStates off).getD AlertState.pending

/-- Embedding of `CalendarEvent.SetAlertState` (`internal/storage/event.go`,
lines 460-466). -/
def setAlertState (e : CalendarEvent) (off : Int) (st : AlertState) : CalendarEvent :=
  { e with alertStates := insertState e.alertStates off st }

/-- The `events : map[string]Event` index of `storage.MemoryEventStorage`
(`src/unnamed/part_008`), as an association list keyed by UID.  The derived
`dailyIndex` is recomputed from `events` by `regenerateIndexLocked` and holds
no alert state, so it is not modelled. -/
abbrev EventMap : Type := List (String × CalendarEvent)

/-- Embedding of `MemoryEventStorage.UpsertEvent` (`src/unnamed/part_008`,
lines 44-56): the Go map assignment `s.events[event.GetUID()] = event`
replaces the entry with the event's UID when one exists and inserts the event
otherwise. -/
def upsertEvent (events : EventMap) (e : CalendarEvent) : EventMap :=
  if events.any fun p => decide (p.1 = e.uid) then
    events.map fun p => if p.1 = e.uid then (p.1, e) else p
  else events ++ [(e.uid, e)]

/-- Lookup of `s.events[uid]` in the modelled event map. -/
def lookupEvent : EventMap → String → Option CalendarEvent
  | [], _ => none
  | (k, v) :: rest, uid => if k = uid then some v else lookupEvent rest uid

/-! ### Recurrence constructors (interval coercion) -/

/-- Embedding of `recurrence.DailyRecurrence` (`src/unnamed/part_005`). -/
structure DailyRecurrence where
  interval : Int
  untilDate : Option Int
  count : Option Int
deriving DecidableEq, Repr

/-- Embedding of `recurrence.WeeklyRecurrence`
(`internal/recurrence/weekly.go`).  `byDay` holds Go `time.Weekday` values
(`Sunday = 0` through `Saturday = 6`). -/
structure WeeklyRecurrence where
  interval : Int
  byDay : List Int
  untilDate : Option Int
  count : Option Int
deriving DecidableEq, Repr

/-- Embedding of `recurrence.MonthlyRecurrence`
(`internal/recurrence/monthly.go`). -/
structure MonthlyRecurrence where
  interval : Int
  byMonthDay : List Int
  untilDate : Option Int
  count : Option Int
deriving DecidableEq, Repr

/-- Embedding of `recurrence.YearlyRecurrence` (`src/unnamed/part_007`). -/
structure YearlyRecurrence where
  interval : Int
  byMonth : List Int
  byMonthDay : List Int
  untilDate : Option Int
  count : Option Int
deriving DecidableEq, Repr

/-- Embedding of `recurrence.NewDailyRecurrence` (`src/unnamed/part_005`, lines
15-24): a non-positive interval argument is coerced to 1. -/
def newDailyRecurrence (interval : Int) (untilDate count : Option Int) : DailyRecurrence :=
  { interval := if interval ≤ 0 then 1 else interval
    untilDate := untilDate
    count := count }

/-- Embedding of `recurrence.NewWeeklyRecurrence`
(`internal/recurrence/weekly.go`, lines 17-27): a non-positive interval
argument is coerced to 1. -/
def newWeeklyRecurrence (interval : Int) (byDay : List Int)
    (untilDate count : Option Int) : WeeklyRecurrence :=
  { interval := if interval ≤ 0 then 1 else interval
    byDay := byDay
    untilDate := untilDate
    count := count }

/-- Embedding of `recurrence.NewMonthlyRecurrence`
(`internal/recurrence/monthly.go`, lines 16-26): a non-positive interval
argument is coerced to 1. -/
def newMonthlyRecurrence (interval : Int) (byMonthDay : List Int)
    (untilDate count : Option Int) : MonthlyRecurrence :=
  { interval := if interval ≤ 0 then 1 else interval
    byMonthDay := byMonthDay
    untilDate := untilDate
    count := count }

/-- Embedding of `recurrence.NewYearlyRecurrence` (`src/unnamed/part_007`,
lines 17-28): a non-positive interval argument is coerced to 1. -/
def newYearlyRecurrence (interval : Int) (byMonth byMonthDay : List Int)
    (untilDate count : Option Int) : YearlyRecurrence :=
  { interval := if interval ≤ 0 then 1 else interval
    byMonth := byMonth
    byMonthDay := byMonthDay
    untilDate := untilDate
    count := count }

/-! ### Weekly recurrence expansion in zone Europe/Berlin

Instants here are seconds since 2025-01-01 00:00 UTC, and both the process zone
and the event zone are Europe/Berlin, as in the DST scenario the spec states.
`time.Time` methods used by `WeeklyRecurrence.OccurredWithin` split into two
groups: `Truncate`/`Sub` work on the absolute timeline (`truncateDaySec` and
integer subtraction), while `AddDate`/`Weekday` work on the wall clock of the
time's location.  The 2025 Berlin DST rule: UTC offset is +3600 s (CET) before
2025-03-30 01:00 UTC, +7200 s (CEST) from then until 2025-10-26 01:00 UTC, and
+3600 s after.  `berlinFromWall` is the inverse wall-to-instant map; it is
faithful for wall clocks outside the ambiguous fall-back hour, and every
instant evaluated below lies in March or April 2025. -/

/-- Instant of the 2025 spring-forward transition in Europe/Berlin
(2025-03-30 01:00 UTC), in seconds since 2025-01-01 00:00 UTC. -/
def dstStart2025 : Int := 7606800

/-- Instant of the 2025 fall-back transition in Europe/Berlin
(2025-10-26 01:00 UTC), in seconds since 2025-01-01 00:00 UTC. -/
def dstEnd2025 : Int := 25750800

/-- UTC offset of Europe/Berlin (in seconds) at the given instant, for
instants within 2025. -/
def berlinOffset (t : Int) : Int :=
  if dstStart2025 ≤ t ∧ t < dstEnd2025 then 7200 else 3600

/-- Instant for a Europe/Berlin wall-clock value (seconds since
2025-01-01 01:00 wall clock), for unambiguous wall clocks within 2025. -/
def berlinFromWall (w : Int) : Int :=
  if w < dstStart2025 + 3600 then w - 3600
  else if w < dstEnd2025 + 3600 then w - 7200
  else w - 3600

/-- Embedding of Go `t.AddDate(0, 0, n)` in Europe/Berlin: the wall-clock
date is advanced by `n` days and converted back to an instant, so the
wall-clock time of day is preserved across a DST transition. -/
def addDaysBerlin (t n : Int) : Int :=
  berlinFromWall (t + berlinOffset t + n * daySec)

/-- Embedding of Go `t.Weekday()` in Europe/Berlin (`Sunday = 0` through
`Saturday = 6`); 2025-01-01 is a Wednesday (3). -/
def weekdayBerlin (t : Int) : Int :=
  (3 + (t + berlinOffset t) / daySec) % 7

/-- Embedding of `recurrence.getWeekStart` (`internal/recurrence/weekly.go`,
lines 251-259): step back to the Monday of the week containing `t`. -/
def getWeekStartBerlin (t : Int) : Int :=
  let daysSinceMonday := weekdayBerlin t - 1
  let daysSinceMonday :=
    if daysSinceMonday < 0 then daysSinceMonday + 7 else daysSinceMonday
  addDaysBerlin t (-daysSinceMonday)

/-- Embedding of `recurrence.isExceptionDate`: instant equality against the
exception list. -/
def isExceptionDate (t : Int) (exDates : List Int) : Bool :=
  exDates.any fun e => decide (e = t)

/-- Candidate filter for one week of `WeeklyRecurrence.OccurredWithin`
(`internal/recurrence/weekly.go`, lines 105-142): for each target weekday,
build the candidate instant from the week start, then apply the range check,
the base-date check, the UNTIL check and the EXDATE check in the order of the
Go code.  The COUNT branch of the Go loop is not modelled; every recurrence
evaluated below has `count = none`, for which that branch is skipped. -/
def weeklyCandidates (targetWeekdays : List Int) (weekStart startT endT baseDate : Int)
    (untilDate : Option Int) (exDates : List Int) : List Int :=
  targetWeekdays.filterMap fun wd =>
    let dayOffset := wd - 1
    let dayOffset := if dayOffset < 0 then dayOffset + 7 else dayOffset
    let candidate := addDaysBerlin weekStart dayOffset
    if candidate < startT ∨ endT < candidate then none
    else if candidate < baseDate then none
    else if (match untilDate with | some u => decide (u < candidate) | none => false) then none
    else if isExceptionDate candidate exDates then none
    else some candidate

/-- Week-by-week loop of `WeeklyRecurrence.OccurredWithin`: collect the
candidates of the current week, advance the week start by `interval` weeks
(`AddDate(0, 0, interval*7)`), and stop once the week start passes
`end.AddDate(0, 0, 7)`.  The Go `occurrenceCount > 1000` safety cap is the
fuel argument (initially 1001, the number of loop bodies Go executes before
the cap fires). -/
def weeklyLoop (targetWeekdays : List Int) (interval startT endT baseDate : Int)
    (untilDate : Option Int) (exDates : List Int) : Nat → Int → List Int
  | 0, _ => []
  | fuel + 1, weekStart =>
    let cands := weeklyCandidates targetWeekdays weekStart startT endT baseDate untilDate exDates
    let next := addDaysBerlin weekStart (interval * 7)
    if addDaysBerlin endT 7 < next then cands
    else cands ++ weeklyLoop targetWeekdays interval startT endT baseDate untilDate exDates fuel next

/-- Embedding of `WeeklyRecurrence.OccurredWithin`
(`internal/recurrence/weekly.go`, lines 80-160): default the target weekdays
to the base instant's weekday, truncate base and start to 24-hour boundaries,
fast-forward to the first interval week in range when the range starts after
the base date, and run the week loop from the Monday of that week. -/
def weeklyOccurredWithin (wr : WeeklyRecurrence) (startT endT baseTime : Int)
    (exDates : List Int) : List Int :=
  let targetWeekdays := if wr.byDay.isEmpty then [weekdayBerlin baseTime] else wr.byDay
  let baseDate := truncateDaySec baseTime
  let startDate := truncateDaySec startT
  let current :=
    if baseDate < startDate then
      addDaysBerlin baseDate ((startDate - baseDate) / 604800 / wr.interval * wr.interval * 7)
    else baseDate
  weeklyLoop targetWeekdays wr.interval startT endT baseDate wr.untilDate exDates
    1001 (getWeekStartBerlin current)

/-! ### Configuration model (`internal/config/config.go`)

Durations in this section are integers in nanoseconds, the granularity of
Go's `time.Duration`.  Fallible conversions return `Option` (Go returns
`(time.Duration, error)`). -/

/-- Nanoseconds in a millisecond (`time.Millisecond`). -/
def nsPerMillisecond : Int := 1000000

/-- Nanoseconds in a second (`time.Second`). -/
def nsPerSecond : Int := 1000000000

/-- Nanoseconds in a minute (`time.Minute`). -/
def nsPerMinute : Int := 60000000000

/-- Nanoseconds in an hour (`time.Hour`). -/
def nsPerHour : Int := 3600000000000

/-- Nanoseconds in a day (`24 * time.Hour`). -/
def nsPerDay : Int := 86400000000000

/-- Embedding of `config.AlertConfig`. -/
structure AlertConfig where
  value : Int
  unit : String
  important : Bool
deriving DecidableEq, Repr

/-- Embedding of `AlertConfig.Duration` (`internal/config/config.go`, lines
64-78): unit switch with no sign restriction on the value. -/
def alertConfigDuration (a : AlertConfig) : Option Int :=
  if a.unit = "seconds" ∨ a.unit = "second" ∨ a.unit = "s" then
    some (a.value * nsPerSecond)
  else if a.unit = "minutes" ∨ a.unit = "minute" ∨ a.unit = "m" then
    some (a.value * nsPerMinute)
  else if a.unit = "hours" ∨ a.unit = "hour" ∨ a.unit = "h" then
    some (a.value * nsPerHour)
  else if a.unit = "days" ∨ a.unit = "day" ∨ a.unit = "d" then
    some (a.value * 24 * nsPerHour)
  else none

/-- Embedding of `config.DurationConfig`. -/
structure DurationConfig where
  type : String
  value : Int
  unit : String
deriving DecidableEq, Repr

/-- Embedding of `DurationConfig.ToDuration` (`internal/config/config.go`,
lines 103-126): errors on `until_dismissed`, errors on a non-positive value,
then a unit switch where the empty unit defaults to seconds. -/
def durationConfigToDuration (d : DurationConfig) : Option Int :=
  if d.type = "until_dismissed" then none
  else if d.value ≤ 0 then none
  else if d.unit = "milliseconds" ∨ d.unit = "millisecond" ∨ d.unit = "ms" then
    some (d.value * nsPerMillisecond)
  else if d.unit = "seconds" ∨ d.unit = "second" ∨ d.unit = "s" ∨ d.unit = "" then
    some (d.value * nsPerSecond)
  else if d.unit = "minutes" ∨ d.unit = "minute" ∨ d.unit = "m" then
    some (d.value * nsPerMinute)
  else if d.unit = "hours" ∨ d.unit = "hour" ∨ d.unit = "h" then
    some (d.value * nsPerHour)
  else none

/-- Embedding of `config.WakeupHandlingConfig`. -/
structure WakeupHandlingConfig where
  enable : Bool
  missedEventPolicy : String
  maxMissedDays : Int
  summaryThreshold : Int
  maxCatchupTime : DurationConfig
deriving DecidableEq, Repr

/-- Embedding of `config.DirectoryConfig`; the `Directory` path plays no role
in the scheduler claims and is elided. -/
structure DirectoryConfig where
  template : String
  automaticAlerts : List AlertConfig
deriving DecidableEq, Repr

/-! ### Priority classifier (`PriorityClassifier`, `internal/alerts`)

Event instants here are integers in nanoseconds; `Hour()` and `Minute()` of a
start time are read off the UTC wall clock of the integer timeline (the
classifier scenarios place events in UTC).  `time.Now()` inside
`isTimeSensitive` becomes the explicit `now` argument. -/

/-- Pure data of a `storage.Event` as consumed by the priority classifier and
carried in alert requests. -/
structure EventInfo where
  uid : String
  summary : String
  description : String
  startTime : Int
  endTime : Int
deriving DecidableEq, Repr

/-- Embedding of `alerts.EventPriority` (`internal/alerts/scheduler_test.go`):
`PriorityLow = 0` through `PriorityCritical = 3`. -/
inductive EventPriority where
  | low
  | normal
  | high
  | critical
deriving DecidableEq, Repr

/-- Numeric value of an `EventPriority`, used for the Go `<`/`>=` comparisons
on the priority constants. -/
def EventPriority.toNat : EventPriority → Nat
  | .low => 0
  | .normal => 1
  | .high => 2
  | .critical => 3

/-- ASCII lower-casing of one character (`strings.ToLower` on the keyword
alphabet actually used). -/
def toLowerChar (c : Char) : Char :=
  if 'A' ≤ c ∧ c ≤ 'Z' then Char.ofNat (c.toNat + 32) else c

/-- Character-list test that `pat` is a prefix of `s` (helper for the
substring test). -/
def isPrefixChars : List Char → List Char → Bool
  | [], _ => true
  | _ :: _, [] => false
  | a :: as, b :: bs => a = b && isPrefixChars as bs

/-- Embedding of `strings.Contains(hay, needle)` on character lists. -/
def containsChars (needle : List Char) : List Char → Bool
  | [] => isPrefixChars needle []
  | c :: rest => isPrefixChars needle (c :: rest) || containsChars needle rest

/-- Embedding of `PriorityClassifier.getSearchableText`: lower-cased
concatenation of summary, a space, and description. -/
def getSearchableText (e : EventInfo) : List Char :=
  ((e.summary ++ " " ++ e.description).toList).map toLowerChar

/-- Keyword scan shared by the classifier predicates. -/
def containsAnyKeyword (kws : List String) (text : List Char) : Bool :=
  kws.any fun k => containsChars k.toList text

/-- The `criticalPriorityKeywords` list of `NewPriorityClassifier`. -/
def criticalPriorityKeywords : List String :=
  ["urgent", "asap", "emergency", "critical", "important",
   "board meeting", "client meeting", "customer meeting",
   "deadline today", "overdue", "final", "last chance"]

/-- The `highPriorityKeywords` list of `NewPriorityClassifier`. -/
def highPriorityKeywords : List String :=
  ["meeting", "interview", "appointment", "deadline", "due",
   "presentation", "conference", "call", "sync", "standup",
   "1:1", "one-on-one", "review", "demo", "launch"]

/-- The work-keyword list of `PriorityClassifier.isWorkEvent`. -/
def workKeywords : List String :=
  ["work", "office", "team", "project", "client", "customer",
   "business", "corporate", "professional", "company"]

/-- The meeting-keyword list of `PriorityClassifier.hasAttendees`. -/
def meetingKeywords : List String :=
  ["with", "meeting", "call", "sync", "standup", "1:1",
   "conference", "zoom", "teams", "meet", "hangout"]

/-- Embedding of `PriorityClassifier.containsCriticalKeywords`. -/
def containsCriticalKeywords (e : EventInfo) : Bool :=
  containsAnyKeyword criticalPriorityKeywords (getSearchableText e)

/-- Embedding of `PriorityClassifier.containsHighPriorityKeywords`. -/
def containsHighPriorityKeywords (e : EventInfo) : Bool :=
  containsAnyKeyword highPriorityKeywords (getSearchableText e)

/-- Embedding of `PriorityClassifier.isWorkEvent`. -/
def isWorkEvent (e : EventInfo) : Bool :=
  containsAnyKeyword workKeywords (getSearchableText e)

/-- Embedding of `PriorityClassifier.hasAttendees`. -/
def hasAttendees (e : EventInfo) : Bool :=
  containsAnyKeyword meetingKeywords (getSearchableText e)

/-- Embedding of `PriorityClassifier.isTimeSensitive`: the event starts
within the next two hours and is still in the future. -/
def isTimeSensitive (now : Int) (e : EventInfo) : Bool :=
  decide (e.startTime - now ≤ 2 * nsPerHour) && decide (now < e.startTime)

/-- Embedding of `PriorityClassifier.isAllDayEvent`: the start time reads
00:00 on the wall clock and the duration is at least 24 hours. -/
def isAllDayEvent (e : EventInfo) : Bool :=
  decide (e.startTime / nsPerHour % 24 = 0) &&
  decide (e.startTime / nsPerMinute % 60 = 0) &&
  decide (nsPerDay ≤ e.endTime - e.startTime)

/-- Embedding of `PriorityClassifier.ClassifyEvent`
(`internal/alerts/scheduler_test.go`, lines 393-425): start from the keyword
rules, apply the three boost rules (work, attendees, time-sensitive) that only
raise a priority below high, and finally the all-day rule that lowers any
priority above low to low. -/
def classifyEvent (now : Int) (e : EventInfo) : EventPriority :=
  let p0 : EventPriority :=
    if containsCriticalKeywords e then .critical
    else if containsHighPriorityKeywords e then .high
    else .normal
  let p1 := if isWorkEvent e ∧ p0.toNat < 2 then EventPriority.high else p0
  let p2 := if hasAttendees e ∧ p1.toNat < 2 then EventPriority.high else p1
  let p3 := if isTimeSensitive now e ∧ p2.toNat < 2 then EventPriority.high else p2
  if isAllDayEvent e ∧ 0 < p3.toNat then EventPriority.low else p3

/-! ### Alert scheduler: missed-alert catch-up (`src/unnamed/part_004`) -/

/-- Embedding of `alerts.AlertRequest`: the event reference is carried as its
pure data. -/
structure AlertRequest where
  event : EventInfo
  alertOffset : Int
  template : String
deriving DecidableEq, Repr

/-- Event as seen by the scheduler: pure data plus the
`Event.OccurredWithin` range query. -/
structure SchedEvent where
  info : EventInfo
  occurredWithin : Int → Int → List Int

/-- Concatenation of the per-element results of `f` (the shape of nested Go
`for`/`append` loops). -/
def concatMap (f : α → List β) : List α → List β
  | [] => []
  | a :: l => f a ++ concatMap f l

/-- Embedding of `PriorityClassifier.FilterByPriority`: keep requests whose
event classifies at least at `minPriority`. -/
def filterByPriority (now : Int) (minPriority : EventPriority)
    (alerts : List AlertRequest) : List AlertRequest :=
  alerts.filter fun r => decide (minPriority.toNat ≤ (classifyEvent now r.event).toNat)

/-- Embedding of `MinuteBasedScheduler.applyMissedEventPolicy`
(`src/unnamed/part_004`, lines 240-274).  The `summary` branch is the code as
written (its TODO comment notwithstanding): when the count exceeds the
threshold it returns the first `SummaryThreshold` requests
(`alerts[:maxAlerts]`, modelled by `take`; the theorems only exercise
non-negative thresholds, where `take` agrees with the Go slice). -/
def applyMissedEventPolicy (now : Int) (alerts : List AlertRequest)
    (cfg : WakeupHandlingConfig) : List AlertRequest :=
  if alerts.length = 0 then alerts
  else if cfg.missedEventPolicy = "all" then alerts
  else if cfg.missedEventPolicy = "summary" then
    if cfg.summaryThreshold < (alerts.length : Int) then alerts.take cfg.summaryThreshold.toNat
    else alerts
  else if cfg.missedEventPolicy = "priority_only" then
    filterByPriority now EventPriority.high alerts
  else if cfg.missedEventPolicy = "skip" then []
  else alerts

/-- Embedding of `MinuteBasedScheduler.checkMissedEventAlerts`
(`src/unnamed/part_004`, lines 210-238): for every directory config and alert
config, convert the alert offset (skipping invalid configs), and emit a
request when the alert time `occurrence - offset` lies strictly between
`lastTick` and `time.Now()` (the explicit `now`). -/
def checkMissedEventAlerts (dirConfigs : List DirectoryConfig) (e : EventInfo)
    (occurrence lastTick now : Int) : List AlertRequest :=
  concatMap
    (fun dc =>
      dc.automaticAlerts.filterMap fun ac =>
        match alertConfigDuration ac with
        | none => none
        | some off =>
          if lastTick < occurrence - off ∧ occurrence - off < now then
            some { event := e, alertOffset := off, template := dc.template }
          else none)
    dirConfigs

/-- Embedding of `MemoryEventStorage.GetEventsWithinRange`
(`src/unnamed/part_008`, lines 96-111): keep events with at least one
occurrence in the range.  (Go iterates a map in unspecified order; the model
fixes the storage order as the list order.) -/
def getEventsWithinRange (events : List SchedEvent) (startT endT : Int) : List SchedEvent :=
  events.filter fun ev => !(ev.occurredWithin startT endT).isEmpty

/-- Cutoff test at the top of each iteration of the per-event loop of
`MinuteBasedScheduler.CheckMissedAlerts` (`src/unnamed/part_004`, lines
185-203): the loop breaks when the catch-up time type is `timed`, its
`ToDuration` conversion succeeds, and the elapsed-time reading
(`time.Since(processStart)`) exceeds the limit. -/
def missedCut (cfg : WakeupHandlingConfig) (elapsedReading : Int) : Bool :=
  if cfg.maxCatchupTime.type = "timed" then
    match durationConfigToDuration cfg.maxCatchupTime with
    | some d => decide (d < elapsedReading)
    | none => false
  else false

/-- Body of the per-event loop of `CheckMissedAlerts` (continued from
`missedCut`): break at the cutoff, otherwise collect the missed alerts of all
the event's occurrences and continue. -/
def missedLoop (dirConfigs : List DirectoryConfig) (cfg : WakeupHandlingConfig)
    (elapsed : Nat → Int) (lastTick now missedStart missedEnd : Int) :
    Nat → List SchedEvent → List AlertRequest
  | _, [] => []
  | i, ev :: rest =>
    if missedCut cfg (elapsed i) then []
    else
      concatMap (fun occ => checkMissedEventAlerts dirConfigs ev.info occ lastTick now)
          (ev.occurredWithin missedStart missedEnd)
        ++ missedLoop dirConfigs cfg elapsed lastTick now missedStart missedEnd (i + 1) rest

/-- Embedding of `MinuteBasedScheduler.CheckMissedAlerts`
(`src/unnamed/part_004`, lines 158-207): return early when disabled or when
the policy is `skip`; clamp the replay window to `max_missed_days`; select
events with occurrences in the window; run the per-event loop under the
catch-up time limit; and apply the missed-event policy.  The Go
`s.eventStorage == nil` guard is dropped (the model always has a storage), and
`time.Now()` is the explicit `now`. -/
def checkMissedAlerts (events : List SchedEvent) (dirConfigs : List DirectoryConfig)
    (cfg : WakeupHandlingConfig) (elapsed : Nat → Int)
    (lastTick currentTime now : Int) : List AlertRequest :=
  if !cfg.enable then []
  else if cfg.missedEventPolicy = "skip" then []
  else
    let missedEnd := currentTime
    let maxLookback := cfg.maxMissedDays * nsPerDay
    let missedStart :=
      if maxLookback < missedEnd - lastTick then missedEnd - maxLookback else lastTick
    let eventsInRange := getEventsWithinRange events missedStart missedEnd
    applyMissedEventPolicy now
      (missedLoop dirConfigs cfg elapsed lastTick now missedStart missedEnd 0 eventsInRange)
      cfg

/-- The per-event loop with the catch-up time limit removed: reference
behaviour for the amended catch-up claim. -/
def missedLoopUnbounded (dirConfigs : List DirectoryConfig)
    (lastTick now missedStart missedEnd : Int) : List SchedEvent → List AlertRequest
  | [] => []
  | ev :: rest =>
    concatMap (fun occ => checkMissedEventAlerts dirConfigs ev.info occ lastTick now)
        (ev.occurredWithin missedStart missedEnd)
      ++ missedLoopUnbounded dirConfigs lastTick now missedStart missedEnd rest

/-- `checkMissedAlerts` with the catch-up time limit removed: reference
behaviour for the amended catch-up claim. -/
def checkMissedAlertsUnbounded (events : List SchedEvent)
    (dirConfigs : List DirectoryConfig) (cfg : WakeupHandlingConfig)
    (lastTick currentTime now : Int) : List AlertRequest :=
  if !cfg.enable then []
  else if cfg.missedEventPolicy = "skip" then []
  else
    let missedEnd := currentTime
    let maxLookback := cfg.maxMissedDays * nsPerDay
    let missedStart :=
      if maxLookback < missedEnd - lastTick then missedEnd - maxLookback else lastTick
    let eventsInRange := getEventsWithinRange events missedStart missedEnd
    applyMissedEventPolicy now
      (missedLoopUnbounded dirConfigs lastTick now missedStart missedEnd eventsInRange)
      cfg

/-! ### Tick ordering (`MinuteBasedScheduler.CheckAlerts` and
`AlertManager.run`)

The state-write versus notifier-handoff ordering of one tick is modelled as
the sequence of observable actions the tick thread performs.
`MinuteBasedScheduler.CheckAlerts` (`src/unnamed/part_004`, lines 63-101)
marks each emitted request's alert state `sent` while collecting the requests,
then calls `stateManager.SetLastAlertTick`, and only then returns;
`AlertManager.run` (`src/unnamed/part_004`, lines 470-500) sends the returned
request batch to the notifier channel when it is non-empty. -/

/-- Observable actions of one scheduler tick. -/
inductive TickStep where
  | markSent
  | setLastAlertTick
  | handOffToSink
deriving DecidableEq, Repr

/-- Action trace of `MinuteBasedScheduler.CheckAlerts` for a tick that
computes `requests`: one `markSent` per emitted request, then the
`SetLastAlertTick` state write. -/
def checkAlertsSteps (requests : List AlertRequest) : List TickStep :=
  requests.map (fun _ => TickStep.markSent) ++ [TickStep.setLastAlertTick]

/-- Action trace of one iteration of `AlertManager.run`: the `CheckAlerts`
trace followed by the channel handoff, which happens only for a non-empty
request batch. -/
def runTickSteps (requests : List AlertRequest) : List TickStep :=
  checkAlertsSteps requests ++
    (if requests.isEmpty then [] else [TickStep.handOffToSink])

/-! ### Concrete instances used by the witnesses and counterexamples -/

/-- Inclusive-bounds range query of an event that occurs exactly at instant
`v` — the contract the Go recurrence engines answer for a one-occurrence
event. -/
def singletonEnum (v : Int) : Int → Int → List Int :=
  fun lo hi => if lo ≤ v ∧ v ≤ hi then [v] else []

/-- A VALARM alert five minutes (300 s) before the event. -/
def w1Alert : Alert := { offset := 300, important := true, source := .valarm }

/-- Event-occurrence enumerator of an event that occurs exactly at instant
1000. -/
def w1Enum : Int → Int → List Int := singletonEnum 1000

/-- The weekly recurrence of the DST scenario: every week on Monday. -/
def dstRecurrence : WeeklyRecurrence :=
  { interval := 1, byDay := [1], untilDate := none, count := none }

/-- The single five-minute alert of the DST scenario. -/
def dstAlerts : List Alert := [{ offset := 300, important := false, source := .config }]

/-- Base instant of the DST scenario: 2025-03-24 10:00 Europe/Berlin
(09:00 UTC), in seconds since 2025-01-01 00:00 UTC. -/
def dstBase : Int := 7117200

/-- Event-occurrence enumerator of the DST-scenario event: the weekly
recurrence expansion called exactly as `CalendarEvent.getEventOccurrences`
calls it, with the event's start time as base and no exception dates. -/
def dstEnum : Int → Int → List Int :=
  fun lo hi => weeklyOccurredWithin dstRecurrence lo hi dstBase []

/-- Lower bound of the DST-scenario query range: 2025-03-30 00:00 Europe/Berlin. -/
def dstQueryStart : Int := 7599600

/-- Upper bound of the DST-scenario query range: 2025-04-07 00:00 Europe/Berlin. -/
def dstQueryEnd : Int := 8287200

/-- An event stored with one per-offset alert state already `sent` (offset
300 s): the event being replaced in the upsert scenario. -/
def storedOld : CalendarEvent :=
  setAlertState (newCalendarEvent "uid-1" "Old summary" "" "" 100 200 []) 300 .sent

/-- The freshly parsed replacement event with the same UID. -/
def storedNew : CalendarEvent := newCalendarEvent "uid-1" "New summary" "" "" 100 200 []

/-- The store holding the old event. -/
def storeBefore : EventMap := upsertEvent [] storedOld

/-- An intrinsic (VALARM) alert at offset 600 s. -/
def w4Intrinsic : List Alert := [{ offset := 600, important := true, source := .valarm }]

/-- A calendar (config) alert at the same offset 600 s. -/
def w4Automatic : List Alert := [{ offset := 600, important := false, source := .config }]

/-- A one-day (86400 s) alert. -/
def dayAlert : Alert := { offset := 86400, important := false, source := .config }

/-- The alert list of the day-boundary scenario. -/
def dayAlerts : List Alert := [dayAlert]

/-- Event-occurrence enumerator of an event occurring exactly at instant
86400 (the start of day 1). -/
def dayEnum : Int → Int → List Int := singletonEnum 86400

/-- Event-occurrence enumerator of an event occurring exactly at instant
90000 (one hour into day 1). -/
def dayEnumInside : Int → Int → List Int := singletonEnum 90000

/-- Pure data of the catch-up scenario event. -/
def cuInfo : EventInfo :=
  { uid := "e1", summary := "", description := "", startTime := 0, endTime := 0 }

/-- The catch-up scenario event: one occurrence at instant 1000. -/
def cuEvent : SchedEvent :=
  { info := cuInfo
    occurredWithin := singletonEnum 1000 }

/-- Directory configuration of the catch-up scenario: one alert at offset 0. -/
def cuDirs : List DirectoryConfig :=
  [{ template := "tpl", automaticAlerts := [{ value := 0, unit := "s", important := false }] }]

/-- Wake-up configuration with `max_catchup_time` equal to the zero timed
duration. -/
def cuCfgZero : WakeupHandlingConfig :=
  { enable := true
    missedEventPolicy := "all"
    maxMissedDays := 7
    summaryThreshold := 3
    maxCatchupTime := { type := "timed", value := 0, unit := "s" } }

/-- Wake-up configuration with policy `summary` and threshold 3. -/
def summaryCfg : WakeupHandlingConfig :=
  { enable := true
    missedEventPolicy := "summary"
    maxMissedDays := 7
    summaryThreshold := 3
    maxCatchupTime := { type := "timed", value := 30, unit := "s" } }

/-- Missed alert request number `n` of the summary-policy scenario. -/
def summaryReq (n : Nat) : AlertRequest :=
  { event := { uid := "m" ++ toString n, summary := "", description := "",
               startTime := 0, endTime := 0 }
    alertOffset := 300 * nsPerSecond
    template := "tpl" }

/-- An all-day event whose summary contains the critical keyword `urgent`:
starts at 00:00 and lasts exactly 24 hours. -/
def urgentAllDay : EventInfo :=
  { uid := "c8", summary := "urgent release", description := "",
    startTime := 0, endTime := nsPerDay }

/-- A timed (not all-day) event whose summary contains the critical keyword
`urgent`. -/
def urgentTimed : EventInfo :=
  { uid := "c8b", summary := "urgent release", description := "",
    startTime := nsPerHour, endTime := 2 * nsPerHour }

/-- The single alert request of the tick-ordering scenario. -/
def tickRequest : AlertRequest :=
  { event := { uid := "e9", summary := "", description := "", startTime := 0, endTime := 0 }
    alertOffset := 300 * nsPerSecond
    template := "tpl" }

/-! ## Theorems -/

/-! ### Helper lemmas: event store -/

/-- Replacing the entry for `e.uid` and then looking that UID up yields `e`,
provided the UID was present. -/
theorem lookupEvent_map_replace (store : EventMap) (e : CalendarEvent)
    (h : (store.any fun p => decide (p.1 = e.uid)) = true) :
    lookupEvent (store.map fun p => if p.1 = e.uid then (p.1, e) else p) e.uid = some e := by
  induction store with
  | nil => simp at h
  | cons p rest ih =>
    simp only [List.map_cons]
    by_cases hp : p.1 = e.uid
    · rw [if_pos hp]
      simp [lookupEvent, hp]
    · rw [if_neg hp]
      simp only [List.any_cons, Bool.or_eq_true, decide_eq_true_eq] at h
      rcases h with h | h
      · exact absurd h hp
      · simp only [lookupEvent]
        rw [if_neg hp]
        exact ih h

/-- Appending a fresh entry for `e.uid` and then looking that UID up yields
`e`, provided the UID was absent. -/
theorem lookupEvent_append_new (store : EventMap) (e : CalendarEvent)
    (h : (store.any fun p => decide (p.1 = e.uid)) = false) :
    lookupEvent (store ++ [(e.uid, e)]) e.uid = some e := by
  induction store with
  | nil => simp [lookupEvent]
  | cons p rest ih =>
    simp only [List.any_cons, Bool.or_eq_false_iff, decide_eq_false_iff_not] at h
    have := ih (by simpa using h.2)
    simpa [lookupEvent, h.1] using this

/-- Looking up an upserted event's UID yields that event: the Go map
assignment semantics of `UpsertEvent`. -/
theorem lookupEvent_upsertEvent (store : EventMap) (e : CalendarEvent) :
    lookupEvent (upsertEvent store e) e.uid = some e := by
  unfold upsertEvent
  by_cases h : (store.any fun p => decide (p.1 = e.uid)) = true
  · rw [if_pos h]
    exact lookupEvent_map_replace store e h
  · rw [if_neg h]
    exact lookupEvent_append_new store e (by revert h; cases store.any fun p => decide (p.1 = e.uid) <;> simp)

/-! ### Helper lemmas: alert deduplication -/

/-- Counting distributes over list append. -/
theorem countOffset_append (t : Int) (l1 l2 : List Alert) :
    countOffset t (l1 ++ l2) = countOffset t l1 + countOffset t l2 := by
  induction l1 with
  | nil => simp [countOffset]
  | cons a rest ih => simp [countOffset, ih]; omega

/-- A list with zero entries at offset `t` has no member at offset `t`. -/
theorem countOffset_eq_zero (t : Int) (l : List Alert) (h : countOffset t l = 0) :
    ∀ x ∈ l, x.offset ≠ t := by
  induction l with
  | nil => simp
  | cons a rest ih =>
    simp only [countOffset] at h
    intro x hx
    rcases List.mem_cons.mp hx with rfl | hx
    · intro ha
      rw [if_pos ha] at h
      omega
    · exact ih (by omega) x hx

/-- The `unique` accumulator of a deduplication pass only grows by appending:
the result is the initial accumulator followed by the entries the pass adds. -/
theorem dedupPass_acc (keep : Alert → Bool) (l : List Alert) (seen : List Int)
    (u : List Alert) :
    (dedupPass keep l seen u).2 = u ++ (dedupPass keep l seen []).2 := by
  induction l generalizing seen u with
  | nil => simp [dedupPass]
  | cons a rest ih =>
    by_cases hk : keep a = true ∧ a.offset ∉ seen
    · simp only [dedupPass, if_pos hk]
      rw [ih (a.offset :: seen) (u ++ [a]), ih (a.offset :: seen) ([] ++ [a])]
      simp
    · simp only [dedupPass, if_neg hk]
      exact ih seen u

/-- Membership in the final `seen` set of a deduplication pass: an offset is
seen afterwards iff it was seen before or some kept alert in the input has
that offset. -/
theorem dedupPass_seen (keep : Alert → Bool) (l : List Alert) (seen : List Int)
    (u : List Alert) (t : Int) :
    t ∈ (dedupPass keep l seen u).1 ↔
      t ∈ seen ∨ ∃ a ∈ l, keep a = true ∧ a.offset = t := by
  induction l generalizing seen u with
  | nil => simp [dedupPass]
  | cons a rest ih =>
    by_cases hk : keep a = true ∧ a.offset ∉ seen
    · simp only [dedupPass, if_pos hk]
      rw [ih]
      constructor
      · rintro (hs | ⟨b, hb, hkb, hbt⟩)
        · rcases List.mem_cons.mp hs with rfl | hs
          · exact Or.inr ⟨a, List.mem_cons_self a rest, hk.1, rfl⟩
          · exact Or.inl hs
        · exact Or.inr ⟨b, List.mem_cons_of_mem a hb, hkb, hbt⟩
      · rintro (hs | ⟨b, hb, hkb, hbt⟩)
        · exact Or.inl (List.mem_cons_of_mem _ hs)
        · rcases List.mem_cons.mp hb with rfl | hb
          · exact Or.inl (hbt ▸ List.mem_cons_self b.offset seen)
          · exact Or.inr ⟨b, hb, hkb, hbt⟩
    · simp only [dedupPass, if_neg hk]
      rw [ih]
      constructor
      · rintro (hs | ⟨b, hb, hkb, hbt⟩)
        · exact Or.inl hs
        · exact Or.inr ⟨b, List.mem_cons_of_mem a hb, hkb, hbt⟩
      · rintro (hs | ⟨b, hb, hkb, hbt⟩)
        · exact Or.inl hs
        · rcases List.mem_cons.mp hb with rfl | hb
          · push_neg at hk
            exact Or.inl (hbt ▸ hk hkb)
          · exact Or.inr ⟨b, hb, hkb, hbt⟩

/-- Entry count of a deduplication pass at offset `t`: the pass adds exactly
one entry at `t` when `t` is unseen and some kept input alert has offset `t`,
and none otherwise. -/
theorem dedupPass_count (keep : Alert → Bool) (l : List Alert) (seen : List Int)
    (u : List Alert) (t : Int) :
    countOffset t (dedupPass keep l seen u).2 =
      countOffset t u +
        (if t ∉ seen ∧ ∃ a ∈ l, keep a = true ∧ a.offset = t then 1 else 0) := by
  induction l generalizing seen u with
  | nil => simp [dedupPass]
  | cons a rest ih =>
    by_cases hk : keep a = true ∧ a.offset ∉ seen
    · simp only [dedupPass, if_pos hk]
      rw [ih, countOffset_append]
      by_cases hat : a.offset = t
      · have h2 : ¬(t ∉ a.offset :: seen ∧ ∃ b ∈ rest, keep b = true ∧ b.offset = t) := by
          rintro ⟨hns, -⟩
          exact hns (by simp [hat])
        have h3 : t ∉ seen ∧ ∃ b ∈ a :: rest, keep b = true ∧ b.offset = t :=
          ⟨hat ▸ hk.2, a, List.mem_cons_self a rest, hk.1, hat⟩
        rw [if_neg h2, if_pos h3]
        simp [countOffset, hat]
      · have hiff : (t ∉ a.offset :: seen ∧ ∃ b ∈ rest, keep b = true ∧ b.offset = t) ↔
            (t ∉ seen ∧ ∃ b ∈ a :: rest, keep b = true ∧ b.offset = t) := by
          constructor
          · rintro ⟨hns, b, hb, hkb, hbt⟩
            exact ⟨fun hs => hns (List.mem_cons_of_mem _ hs),
              b, List.mem_cons_of_mem a hb, hkb, hbt⟩
          · rintro ⟨hns, b, hb, hkb, hbt⟩
            refine ⟨?_, ?_⟩
            · intro hs
              rcases List.mem_cons.mp hs with h | hs
              · exact hat h.symm
              · exact hns hs
            · rcases List.mem_cons.mp hb with rfl | hb
              · exact absurd hbt hat
              · exact ⟨b, hb, hkb, hbt⟩
        rw [if_congr hiff rfl rfl]
        simp only [countOffset, if_neg hat]
        omega
    · simp only [dedupPass, if_neg hk]
      rw [ih]
      have hiff : (t ∉ seen ∧ ∃ b ∈ rest, keep b = true ∧ b.offset = t) ↔
          (t ∉ seen ∧ ∃ b ∈ a :: rest, keep b = true ∧ b.offset = t) := by
        constructor
        · rintro ⟨hns, b, hb, hkb, hbt⟩
          exact ⟨hns, b, List.mem_cons_of_mem a hb, hkb, hbt⟩
        · rintro ⟨hns, b, hb, hkb, hbt⟩
          refine ⟨hns, ?_⟩
          rcases List.mem_cons.mp hb with rfl | hb
          · push_neg at hk
            exact absurd (hbt ▸ hk hkb) hns
          · exact ⟨b, hb, hkb, hbt⟩
      rw [if_congr hiff rfl rfl]

/-- Every entry a deduplication pass returns was already in the accumulator or
is a kept input alert. -/
theorem dedupPass_mem (keep : Alert → Bool) (l : List Alert) (seen : List Int)
    (u : List Alert) (x : Alert) (hx : x ∈ (dedupPass keep l seen u).2) :
    x ∈ u ∨ (x ∈ l ∧ keep x = true) := by
  induction l generalizing seen u with
  | nil => exact Or.inl (by simpa [dedupPass] using hx)
  | cons a rest ih =>
    by_cases hk : keep a = true ∧ a.offset ∉ seen
    · rw [dedupPass, if_pos hk] at hx
      rcases ih _ _ hx with hu | ⟨hl, hkx⟩
      · rcases List.mem_append.mp hu with hu | ha
        · exact Or.inl hu
        · have hxa := List.mem_singleton.mp ha
          refine Or.inr ⟨?_, ?_⟩
          · rw [hxa]
            exact List.mem_cons_self a rest
          · rw [hxa]
            exact hk.1
      · exact Or.inr ⟨List.mem_cons_of_mem a hl, hkx⟩
    · rw [dedupPass, if_neg hk] at hx
      rcases ih _ _ hx with hu | ⟨hl, hkx⟩
      · exact Or.inl hu
      · exact Or.inr ⟨List.mem_cons_of_mem a hl, hkx⟩

/-- Only alerts with VALARM source pass the first deduplication filter. -/
theorem isIntrinsicAlert_source {a : Alert} (h : isIntrinsicAlert a = true) :
    a.source = AlertSource.valarm := by
  unfold isIntrinsicAlert at h
  cases hs : a.source
  · rw [hs] at h
    simp at h
  · rfl

/-! ### Helper lemmas: occurrence computation -/

/-- The running maximum in `getMaxAlertOffset` never drops below its start
value. -/
theorem foldl_max_init_le (l : List Alert) (init : Int) :
    init ≤ l.foldl (fun m a => if a.offset > m then a.offset else m) init := by
  induction l generalizing init with
  | nil => simp
  | cons a rest ih =>
    simp only [List.foldl_cons]
    calc init ≤ if a.offset > init then a.offset else init := by split <;> omega
    _ ≤ _ := ih _

/-- Every alert's offset is bounded by the running maximum, whatever the
start value. -/
theorem offset_le_foldl_max (l : List Alert) (a : Alert) (h : a ∈ l) (init : Int) :
    a.offset ≤ l.foldl (fun m b => if b.offset > m then b.offset else m) init := by
  induction l generalizing init with
  | nil => cases h
  | cons b rest ih =>
    simp only [List.foldl_cons]
    rcases List.mem_cons.mp h with rfl | h
    · calc a.offset ≤ if a.offset > init then a.offset else init := by split <;> omega
      _ ≤ _ := foldl_max_init_le rest _
    · exact ih h _

/-- The maximal alert offset bounds every alert's offset. -/
theorem offset_le_getMaxAlertOffset {l : List Alert} {a : Alert} (h : a ∈ l) :
    a.offset ≤ getMaxAlertOffset l :=
  offset_le_foldl_max l a h 0

/-- The maximal alert offset is non-negative (the fold starts at the zero
duration). -/
theorem getMaxAlertOffset_nonneg (l : List Alert) : 0 ≤ getMaxAlertOffset l :=
  foldl_max_init_le l 0

/-- Occurrence counting distributes over list append. -/
theorem countOcc_append (o : Occurrence) (l1 l2 : List Occurrence) :
    countOcc o (l1 ++ l2) = countOcc o l1 + countOcc o l2 := by
  induction l1 with
  | nil => simp [countOcc]
  | cons x rest ih =>
    rw [List.cons_append]
    simp only [countOcc]
    rw [ih]
    omega

/-- A list none of whose members equals `o` counts `o` zero times. -/
theorem countOcc_eq_zero_of_forall_ne (o : Occurrence) (l : List Occurrence)
    (h : ∀ x ∈ l, x ≠ o) : countOcc o l = 0 := by
  induction l with
  | nil => rfl
  | cons x rest ih =>
    simp only [countOcc]
    rw [if_neg (h x (List.mem_cons_self x rest)), Nat.zero_add]
    exact ih fun y hy => h y (List.mem_cons_of_mem x hy)

/-- Membership in the inner alert loop: exactly the occurrences built from an
alert whose alert time lies in the half-open-left target range. -/
theorem mem_alertOccurrences {alerts : List Alert} {startT endT t : Int} {o : Occurrence} :
    o ∈ alertOccurrences alerts startT endT t ↔
      ∃ a ∈ alerts, startT < t - a.offset ∧ t - a.offset ≤ endT ∧
        o = mkOccurrence endT t a := by
  unfold alertOccurrences
  rw [List.mem_filterMap]
  constructor
  · rintro ⟨a, ha, hfa⟩
    by_cases hcond : startT < t - a.offset ∧ t - a.offset ≤ endT
    · rw [if_pos hcond] at hfa
      exact ⟨a, ha, hcond.1, hcond.2, (Option.some.inj hfa).symm⟩
    · rw [if_neg hcond] at hfa
      cases hfa
  · rintro ⟨a, ha, h1, h2, rfl⟩
    exact ⟨a, ha, by rw [if_pos ⟨h1, h2⟩]⟩

/-- Every occurrence the inner loop yields for event instant `t` carries `t`
as its event time. -/
theorem alertOccurrences_eventTime {alerts : List Alert} {startT endT t : Int}
    {o : Occurrence} (h : o ∈ alertOccurrences alerts startT endT t) :
    o.eventTime = t := by
  rcases mem_alertOccurrences.mp h with ⟨a, -, -, -, rfl⟩
  rfl

/-- One unfolding step of occurrence counting over the inner alert loop. -/
theorem countOcc_alertOccurrences_cons (b : Alert) (rest : List Alert)
    (startT endT E : Int) (o : Occurrence) :
    countOcc o (alertOccurrences (b :: rest) startT endT E) =
      (if startT < E - b.offset ∧ E - b.offset ≤ endT then
        (if mkOccurrence endT E b = o then 1 else 0) else 0) +
      countOcc o (alertOccurrences rest startT endT E) := by
  unfold alertOccurrences
  rw [List.filterMap_cons]
  by_cases hcb : startT < E - b.offset ∧ E - b.offset ≤ endT
  · rw [if_pos hcb, if_pos hcb]
    rfl
  · rw [if_neg hcb, if_neg hcb, Nat.zero_add]

/-- Count of the occurrence for alert `a` at event instant `E` in the inner
loop run at `E`: one when the alert time is in range, zero otherwise —
assuming the deduplicated alert list has pairwise distinct offsets. -/
theorem countOcc_alertOccurrences_self {alerts : List Alert} {startT endT E : Int}
    {a : Alert} (ha : a ∈ alerts) (hnd : (alerts.map Alert.offset).Nodup) :
    countOcc (mkOccurrence endT E a) (alertOccurrences alerts startT endT E) =
      if startT < E - a.offset ∧ E - a.offset ≤ endT then 1 else 0 := by
  induction alerts with
  | nil => cases ha
  | cons b rest ih =>
    rcases List.nodup_cons.mp hnd with ⟨hbo, hnd'⟩
    rw [countOcc_alertOccurrences_cons]
    rcases List.mem_cons.mp ha with rfl | harest
    · have hrest0 : countOcc (mkOccurrence endT E a) (alertOccurrences rest startT endT E)
          = 0 := by
        refine countOcc_eq_zero_of_forall_ne _ _ fun x hx hxa => ?_
        rcases mem_alertOccurrences.mp hx with ⟨c, hc, -, -, rfl⟩
        have hoc : c.offset = a.offset := congrArg Occurrence.offset hxa
        exact hbo (hoc ▸ List.mem_map_of_mem Alert.offset hc)
      rw [hrest0, if_pos rfl, Nat.add_zero]
    · have hba : b.offset ≠ a.offset := by
        intro hba
        exact hbo (hba ▸ List.mem_map_of_mem Alert.offset harest)
      have hne : mkOccurrence endT E b ≠ mkOccurrence endT E a :=
        fun h => hba (congrArg Occurrence.offset h)
      rw [if_neg hne, ite_self, Nat.zero_add, ih harest hnd']

/-- Membership in the outer event loop. -/
theorem mem_occLoop {alerts : List Alert} {startT endT : Int} {ts : List Int}
    {o : Occurrence} :
    o ∈ occLoop alerts startT endT ts ↔
      ∃ t ∈ ts, o ∈ alertOccurrences alerts startT endT t := by
  induction ts with
  | nil => simp [occLoop]
  | cons t rest ih =>
    simp only [occLoop, List.mem_append, ih, List.mem_cons]
    constructor
    · rintro (h | ⟨u, hu, ho⟩)
      · exact ⟨t, Or.inl rfl, h⟩
      · exact ⟨u, Or.inr hu, ho⟩
    · rintro ⟨u, rfl | hu, ho⟩
      · exact Or.inl ho
      · exact Or.inr ⟨u, hu, ho⟩

/-- Count of the occurrence for alert `a` at event instant `E` across the
outer loop: determined by whether `E` is among the (duplicate-free) event
instants. -/
theorem countOcc_occLoop {alerts : List Alert} {startT endT : Int} {ts : List Int}
    {E : Int} {a : Alert} (hnd : ts.Nodup) :
    countOcc (mkOccurrence endT E a) (occLoop alerts startT endT ts) =
      if E ∈ ts then countOcc (mkOccurrence endT E a) (alertOccurrences alerts startT endT E)
      else 0 := by
  induction ts with
  | nil => simp [occLoop, countOcc]
  | cons t rest ih =>
    rcases List.nodup_cons.mp hnd with ⟨hnt, hnd'⟩
    rw [occLoop, countOcc_append, ih hnd']
    by_cases hEt : E = t
    · subst hEt
      rw [if_neg hnt, if_pos (List.mem_cons_self E rest), Nat.add_zero]
    · have hhead0 : countOcc (mkOccurrence endT E a)
          (alertOccurrences alerts startT endT t) = 0 := by
        refine countOcc_eq_zero_of_forall_ne _ _ fun x hx hxa => ?_
        have hT := alertOccurrences_eventTime hx
        rw [hxa] at hT
        exact hEt hT
      rw [hhead0, Nat.zero_add]
      by_cases hEr : E ∈ rest
      · rw [if_pos hEr, if_pos (List.mem_cons_of_mem t hEr)]
      · rw [if_neg hEr, if_neg (by simp [hEt, hEr])]

/-- Membership characterization of `occurrencesWithin`: the occurrences built
from an enumerated event instant and an alert whose alert time is in range. -/
theorem mem_occurrencesWithin {alerts : List Alert} {eventOccs : Int → Int → List Int}
    {startT endT : Int} {o : Occurrence} :
    o ∈ occurrencesWithin alerts eventOccs startT endT ↔
      ∃ t ∈ eventOccs startT (endT + getMaxAlertOffset alerts), ∃ a ∈ alerts,
        startT < t - a.offset ∧ t - a.offset ≤ endT ∧ o = mkOccurrence endT t a := by
  unfold occurrencesWithin
  by_cases he : alerts.isEmpty = true
  · rw [if_pos he]
    have : alerts = [] := List.isEmpty_iff.mp he
    subst this
    simp
  · rw [if_neg he, mem_occLoop]
    constructor
    · rintro ⟨t, ht, ho⟩
      rcases mem_alertOccurrences.mp ho with ⟨a, ha, h1, h2, rfl⟩
      exact ⟨t, ht, a, ha, h1, h2, rfl⟩
    · rintro ⟨t, ht, a, ha, h1, h2, rfl⟩
      exact ⟨t, ht, mem_alertOccurrences.mpr ⟨a, ha, h1, h2, rfl⟩⟩

/-- The singleton enumerator meets the recurrence-engine contract for the
one-occurrence event at `v`. -/
theorem singletonEnum_spec (v : Int) :
    ∀ lo hi t, t ∈ singletonEnum v lo hi ↔ lo ≤ t ∧ t ≤ hi ∧ t = v := by
  intro lo hi t
  unfold singletonEnum
  by_cases h : lo ≤ v ∧ v ≤ hi
  · rw [if_pos h]
    simp only [List.mem_singleton]
    constructor
    · rintro rfl
      exact ⟨h.1, h.2, rfl⟩
    · rintro ⟨-, -, rfl⟩
      rfl
  · rw [if_neg h]
    simp only [List.not_mem_nil, false_iff]
    rintro ⟨h1, h2, rfl⟩
    exact h ⟨h1, h2⟩

/-- The singleton enumerator returns duplicate-free lists. -/
theorem singletonEnum_nodup (v : Int) : ∀ lo hi, (singletonEnum v lo hi).Nodup := by
  intro lo hi
  unfold singletonEnum
  split
  · simp
  · simp

/-! ### Claim theorems -/

/-- C10: every recurrence value produced by the constructors
`NewDailyRecurrence`, `NewWeeklyRecurrence`, `NewMonthlyRecurrence` and
`NewYearlyRecurrence` has `Interval ≥ 1`: a non-positive interval argument is
coerced to 1, so the interval-modulus and interval-division computations in
the query operations never use a zero interval. -/
theorem recurrence_constructors_interval_ge_one (i : Int) (bd bm bmd : List Int)
    (u c : Option Int) :
    1 ≤ (newDailyRecurrence i u c).interval ∧
    1 ≤ (newWeeklyRecurrence i bd u c).interval ∧
    1 ≤ (newMonthlyRecurrence i bmd u c).interval ∧
    1 ≤ (newYearlyRecurrence i bm bmd u c).interval := by
  unfold newDailyRecurrence newWeeklyRecurrence newMonthlyRecurrence newYearlyRecurrence
  by_cases h : i ≤ 0
  · simp [h]
  · simp only [if_neg h]
    refine ⟨by omega, by omega, by omega, by omega⟩

/-- C2: evaluation of the code on the spec's weekly-DST scenario.  The event
starts 2025-03-24 10:00 Europe/Berlin (instant 7117200) and recurs weekly on
Mondays with one 5-minute alert; the occurrences computed for the range
(2025-03-30 00:00, 2025-04-07 00:00] Berlin contain exactly one alert
occurrence, but it is at instant 7685700 (2025-03-31 00:55 Berlin wall clock),
not at 7718100 (2025-03-31 09:55 Berlin) as the claim states: the weekly
expansion truncates the base time to a UTC day boundary, so occurrence
instants do not carry the event's start time of day. -/
theorem weekly_dst_occurrence_eval :
    occurrencesWithin dstAlerts dstEnum dstQueryStart dstQueryEnd =
      [{ eventTime := 7686000, alertTime := 7685700, offset := 300,
         important := false, late := true }] ∧
    ¬ ∃ o ∈ occurrencesWithin dstAlerts dstEnum dstQueryStart dstQueryEnd,
        o.alertTime = 7718100 := by
  constructor
  · decide
  · decide

/-- C7: evaluation of `applyMissedEventPolicy` on the summary-policy scenario:
with policy `summary`, threshold 3 and four missed requests, the code returns
the first three requests individually instead of the single aggregate request
the claim (and the spec) describe; the TODO comment in the Go code records the
missing aggregation. -/
theorem applyMissedEventPolicy_summary_eval :
    applyMissedEventPolicy 0 [summaryReq 1, summaryReq 2, summaryReq 3, summaryReq 4]
        summaryCfg =
      [summaryReq 1, summaryReq 2, summaryReq 3] ∧
    (applyMissedEventPolicy 0 [summaryReq 1, summaryReq 2, summaryReq 3, summaryReq 4]
        summaryCfg).length ≠ 1 := by
  constructor
  · decide
  · decide

/-- C9 counterexample: for a tick that computes one request, the modelled
action trace of `CheckAlerts` followed by `AlertManager.run` performs the
`SetLastAlertTick` state write strictly before the handoff to the notifier
channel, so the claim that the tick is recorded only after the handoff fails. -/
theorem tick_state_write_before_handoff :
    (runTickSteps [tickRequest]).indexOf TickStep.setLastAlertTick <
      (runTickSteps [tickRequest]).indexOf TickStep.handOffToSink := by
  decide

/-- C9 amended: within one tick, `last_alert_tick` is advanced after all of
the tick's alert requests have been computed and marked sent, and before (not
after) the batch is handed to the notifier sink: the trace is the `markSent`
actions, then the state write, then the handoff. -/
theorem tick_trace_order (requests : List AlertRequest) (h : requests ≠ []) :
    runTickSteps requests =
      requests.map (fun _ => TickStep.markSent) ++
        [TickStep.setLastAlertTick, TickStep.handOffToSink] := by
  unfold runTickSteps checkAlertsSteps
  rw [if_neg (by simpa using h)]
  simp

/-- Witness for the amended tick-ordering theorem at the one-request tick. -/
theorem tick_trace_order_witness :
    [tickRequest] ≠ [] ∧
    runTickSteps [tickRequest] =
      [TickStep.markSent, TickStep.setLastAlertTick, TickStep.handOffToSink] := by
  refine ⟨by decide, ?_⟩
  have h := tick_trace_order [tickRequest] (by decide)
  simpa using h

/-- C3 counterexample: the old stored event has the 300-second offset marked
`sent`; upserting a freshly parsed event with the same UID replaces it, and
the replacing event reports `pending` for that offset, so the `sent` state is
not preserved. -/
theorem upsert_not_preserving_sent_state :
    getAlertState storedOld 300 = AlertState.sent ∧
    lookupEvent (upsertEvent storeBefore storedNew) "uid-1" = some storedNew ∧
    getAlertState storedNew 300 = AlertState.pending := by
  refine ⟨by decide, by decide, by decide⟩

/-- C3 amended: upserting an event replaces the stored event with the same
UID, and the replacing event — constructed by `NewCalendarEvent` with a fresh
(empty) alert-state map — reports `pending` for every offset; per-offset alert
state of the old event, `sent` included, is not carried over. -/
theorem upsert_replaces_and_resets_state (store : EventMap)
    (uid summary description location : String) (startT endT : Int)
    (intrinsic : List Alert) (off : Int) :
    lookupEvent (upsertEvent store
        (newCalendarEvent uid summary description location startT endT intrinsic)) uid =
      some (newCalendarEvent uid summary description location startT endT intrinsic) ∧
    getAlertState (newCalendarEvent uid summary description location startT endT intrinsic)
        off = AlertState.pending := by
  refine ⟨?_, rfl⟩
  exact lookupEvent_upsertEvent store _

/-- C4: the merged alert list returned by `GetAllAlerts` contains at most one
entry per offset; and when both an intrinsic (VALARM) alert and a calendar
(config) alert exist at the same offset `t`, exactly one entry at `t`
survives and its source is the intrinsic one. -/
theorem getAllAlerts_dedup_intrinsic_wins (intrinsicAlerts automaticAlerts : List Alert)
    (t : Int)
    (hintr : ∀ a ∈ intrinsicAlerts, a.source = AlertSource.valarm)
    (_hauto : ∀ a ∈ automaticAlerts, a.source = AlertSource.config)
    (hv : ∃ a ∈ intrinsicAlerts, a.offset = t)
    (hc : ∃ a ∈ automaticAlerts, a.offset = t) :
    countOffset t (getAllAlerts intrinsicAlerts automaticAlerts) = 1 ∧
    (∀ u ∈ getAllAlerts intrinsicAlerts automaticAlerts,
        u.offset = t → u.source = AlertSource.valarm) ∧
    (∀ s, countOffset s (getAllAlerts intrinsicAlerts automaticAlerts) ≤ 1) := by
  have hu1count : ∀ s : Int,
      countOffset s (dedupPass isIntrinsicAlert (intrinsicAlerts ++ automaticAlerts) [] []).2 =
        if ∃ a ∈ intrinsicAlerts ++ automaticAlerts, isIntrinsicAlert a = true ∧ a.offset = s
        then 1 else 0 := by
    intro s
    rw [dedupPass_count isIntrinsicAlert (intrinsicAlerts ++ automaticAlerts) [] [] s,
      if_congr (and_iff_right (List.not_mem_nil s)) rfl rfl]
    simp [countOffset]
  have hseen1 : ∀ s : Int,
      s ∈ (dedupPass isIntrinsicAlert (intrinsicAlerts ++ automaticAlerts) [] []).1 ↔
        ∃ a ∈ intrinsicAlerts ++ automaticAlerts, isIntrinsicAlert a = true ∧ a.offset = s := by
    intro s
    have h := dedupPass_seen isIntrinsicAlert (intrinsicAlerts ++ automaticAlerts) [] [] s
    simpa using h
  have hfincount : ∀ s : Int,
      countOffset s (getAllAlerts intrinsicAlerts automaticAlerts) =
        (if ∃ a ∈ intrinsicAlerts ++ automaticAlerts, isIntrinsicAlert a = true ∧ a.offset = s
         then 1 else 0) +
        (if (¬ ∃ a ∈ intrinsicAlerts ++ automaticAlerts,
              isIntrinsicAlert a = true ∧ a.offset = s) ∧
            ∃ a ∈ intrinsicAlerts ++ automaticAlerts, isConfigAlert a = true ∧ a.offset = s
         then 1 else 0) := by
    intro s
    have h := dedupPass_count isConfigAlert (intrinsicAlerts ++ automaticAlerts)
      (dedupPass isIntrinsicAlert (intrinsicAlerts ++ automaticAlerts) [] []).1
      (dedupPass isIntrinsicAlert (intrinsicAlerts ++ automaticAlerts) [] []).2 s
    unfold getAllAlerts deduplicateAlerts
    rw [h, hu1count s]
    congr 1
    exact if_congr (and_congr (not_congr (hseen1 s)) Iff.rfl) rfl rfl
  have hvall : ∃ a ∈ intrinsicAlerts ++ automaticAlerts,
      isIntrinsicAlert a = true ∧ a.offset = t := by
    obtain ⟨a, ha, hat⟩ := hv
    exact ⟨a, List.mem_append_left _ ha, by simp [isIntrinsicAlert, hintr a ha], hat⟩
  refine ⟨?_, ?_, ?_⟩
  · rw [hfincount t, if_pos hvall, if_neg (fun h => h.1 hvall)]
  · intro u hu hut
    have hsplit : getAllAlerts intrinsicAlerts automaticAlerts =
        (dedupPass isIntrinsicAlert (intrinsicAlerts ++ automaticAlerts) [] []).2 ++
        (dedupPass isConfigAlert (intrinsicAlerts ++ automaticAlerts)
          (dedupPass isIntrinsicAlert (intrinsicAlerts ++ automaticAlerts) [] []).1 []).2 := by
      unfold getAllAlerts deduplicateAlerts
      exact dedupPass_acc _ _ _ _
    have htail0 : countOffset t
        (dedupPass isConfigAlert (intrinsicAlerts ++ automaticAlerts)
          (dedupPass isIntrinsicAlert (intrinsicAlerts ++ automaticAlerts) [] []).1 []).2 = 0 := by
      have h := dedupPass_count isConfigAlert (intrinsicAlerts ++ automaticAlerts)
        (dedupPass isIntrinsicAlert (intrinsicAlerts ++ automaticAlerts) [] []).1 [] t
      rw [h, if_neg]
      · simp [countOffset]
      · rintro ⟨hns, -⟩
        exact hns ((hseen1 t).mpr hvall)
    rw [hsplit] at hu
    rcases List.mem_append.mp hu with hu1 | hu2
    · rcases dedupPass_mem _ _ _ _ _ hu1 with h | ⟨-, hkeep⟩
      · simp at h
      · exact isIntrinsicAlert_source hkeep
    · exact absurd hut (countOffset_eq_zero t _ htail0 u hu2)
  · intro s
    rw [hfincount s]
    by_cases h1 : ∃ a ∈ intrinsicAlerts ++ automaticAlerts,
        isIntrinsicAlert a = true ∧ a.offset = s
    · rw [if_pos h1, if_neg (fun h => h.1 h1)]
    · rw [if_neg h1]
      by_cases h2 : (¬ ∃ a ∈ intrinsicAlerts ++ automaticAlerts,
            isIntrinsicAlert a = true ∧ a.offset = s) ∧
          ∃ a ∈ intrinsicAlerts ++ automaticAlerts, isConfigAlert a = true ∧ a.offset = s
      · rw [if_pos h2]
      · rw [if_neg h2]
        omega

/-- Witness for the deduplication theorem: one VALARM alert and one config
alert, both at offset 600 s. -/
theorem getAllAlerts_dedup_intrinsic_wins_witness :
    countOffset 600 (getAllAlerts w4Intrinsic w4Automatic) = 1 ∧
    (∀ u ∈ getAllAlerts w4Intrinsic w4Automatic,
        u.offset = 600 → u.source = AlertSource.valarm) ∧
    (∀ s, countOffset s (getAllAlerts w4Intrinsic w4Automatic) ≤ 1) :=
  getAllAlerts_dedup_intrinsic_wins w4Intrinsic w4Automatic 600
    (by decide) (by decide) (by decide) (by decide)

/-- C1: `occurrencesWithin(start, end)` yields exactly one occurrence per pair
of an event instant `E` and an alert `a` of the deduplicated alert set whose
alert time `E - a.offset` lies in `(start, end]` (count 1 when the alert time
is in the interval, 0 otherwise); and every yielded occurrence has
`alert_time = event_time - offset`, copies the alert's offset and important
flag (it is `mkOccurrence` of an alert in the set), is late exactly when its
alert time is earlier than `end` minus one minute, and has its alert time in
`(start, end]`.  The count being 1 whenever the alert time is in the interval
is precisely the guarantee that widening the event search window by the
maximal alert offset misses no pair.  The event enumerator is hypothesised to
satisfy the recurrence-engine contract: it returns exactly the occurrence
instants inside the inclusive range, each once. -/
theorem occurrencesWithin_exactly_one_per_pair
    (alerts : List Alert) (eventOccs : Int → Int → List Int) (isOcc : Int → Prop)
    (startT endT E : Int) (a : Alert)
    (_hrange : startT < endT)
    (henum : ∀ lo hi t, t ∈ eventOccs lo hi ↔ lo ≤ t ∧ t ≤ hi ∧ isOcc t)
    (hnodup : ∀ lo hi, (eventOccs lo hi).Nodup)
    (hoffnn : ∀ b ∈ alerts, 0 ≤ b.offset)
    (hdedup : (alerts.map Alert.offset).Nodup)
    (ha : a ∈ alerts) (hE : isOcc E) :
    (countOcc (mkOccurrence endT E a) (occurrencesWithin alerts eventOccs startT endT) =
      if startT < E - a.offset ∧ E - a.offset ≤ endT then 1 else 0) ∧
    ∀ o ∈ occurrencesWithin alerts eventOccs startT endT,
      o.alertTime = o.eventTime - o.offset ∧
      (o.late = true ↔ o.alertTime < endT - minuteSec) ∧
      startT < o.alertTime ∧ o.alertTime ≤ endT ∧
      ∃ b ∈ alerts, ∃ t, isOcc t ∧ o = mkOccurrence endT t b := by
  have hne : alerts.isEmpty = false := by
    cases alerts
    · cases ha
    · rfl
  constructor
  · unfold occurrencesWithin
    rw [if_neg (by simp [hne]), countOcc_occLoop (hnodup _ _)]
    by_cases hcond : startT < E - a.offset ∧ E - a.offset ≤ endT
    · have hmem : E ∈ eventOccs startT (endT + getMaxAlertOffset alerts) := by
        rw [henum]
        refine ⟨?_, ?_, hE⟩
        · have hb := hoffnn a ha
          omega
        · have hb := offset_le_getMaxAlertOffset ha
          omega
      rw [if_pos hmem, countOcc_alertOccurrences_self ha hdedup]
    · by_cases hmem : E ∈ eventOccs startT (endT + getMaxAlertOffset alerts)
      · rw [if_pos hmem, countOcc_alertOccurrences_self ha hdedup]
      · rw [if_neg hmem, if_neg hcond]
  · intro o ho
    rcases mem_occurrencesWithin.mp ho with ⟨t, ht, b, hb, h1, h2, rfl⟩
    refine ⟨rfl, ?_, h1, h2, b, hb, t, ((henum _ _ t).mp ht).2.2, rfl⟩
    show decide (t - b.offset < endT - minuteSec) = true ↔ t - b.offset < endT - minuteSec
    exact decide_eq_true_iff

/-- Witness for the occurrence theorem: an event at instant 1000 with a
300-second alert queried over the tick range (600, 800] fires exactly once,
at alert time 700. -/
theorem occurrencesWithin_exactly_one_per_pair_witness :
    (600 : Int) < 800 ∧
    countOcc (mkOccurrence 800 1000 w1Alert) (occurrencesWithin [w1Alert] w1Enum 600 800)
      = 1 := by
  refine ⟨by decide, ?_⟩
  have h := occurrencesWithin_exactly_one_per_pair [w1Alert] w1Enum (fun t => t = 1000)
    600 800 1000 w1Alert (by decide) (singletonEnum_spec 1000) (singletonEnum_nodup 1000)
    (by decide) (by decide) (List.mem_singleton.mpr rfl) rfl
  rw [h.1, if_pos (by decide)]

/-- C5 counterexample: an event occurring exactly at instant 86400 (the start
of day 1) with a one-day alert has the alert firing exactly at instant 0, the
start of day 0 — inside the half-open interval `[day start, next day start)`
of the claim — yet `OccursOn(day 0)` returns `false`, because the code
compares with `AlertTime.After(dayStart)`, which is strict. -/
theorem occursOn_day_start_alert_missed :
    ¬ (occursOn false dayAlerts dayEnum 0 = true ↔
        (False ∨ ∃ b ∈ dayAlerts, ∃ t, t = 86400 ∧
          (0 : Int) ≤ t - b.offset ∧ t - b.offset < 86400)) := by
  intro h
  have htrue : occursOn false dayAlerts dayEnum 0 = true :=
    h.mpr (Or.inr ⟨dayAlert, List.mem_singleton.mpr rfl, 86400, rfl, by decide, by decide⟩)
  exact absurd htrue (by decide)

/-- C5 amended: `OccursOn(date)` returns true iff the event itself occurs on
the date, or some alert of the event's merged alert set fires strictly inside
the day — in the open interval `(day start, next day start)`: an alert firing
exactly at the start of the day does not count.  The event enumerator is
hypothesised to satisfy the recurrence-engine contract. -/
theorem occursOn_iff_alert_in_open_day
    (evOcc : Bool) (alerts : List Alert) (eventOccs : Int → Int → List Int)
    (isOcc : Int → Prop) (date : Int)
    (henum : ∀ lo hi t, t ∈ eventOccs lo hi ↔ lo ≤ t ∧ t ≤ hi ∧ isOcc t)
    (hoffnn : ∀ b ∈ alerts, 0 ≤ b.offset) :
    occursOn evOcc alerts eventOccs date = true ↔
      (evOcc = true ∨ ∃ b ∈ alerts, ∃ t, isOcc t ∧
        truncateDaySec date < t - b.offset ∧
        t - b.offset < truncateDaySec date + daySec) := by
  unfold occursOn
  by_cases hev : evOcc = true
  · simp [hev]
  · rw [if_neg hev]
    by_cases he : alerts.isEmpty = true
    · rw [if_pos he]
      have hnil : alerts = [] := List.isEmpty_iff.mp he
      subst hnil
      simp [hev]
    · rw [if_neg he]
      rw [List.any_eq_true]
      constructor
      · rintro ⟨occ, hocc, hP⟩
        rw [decide_eq_true_iff] at hP
        rcases mem_occurrencesWithin.mp hocc with ⟨t, ht, b, hb, -, -, rfl⟩
        refine Or.inr ⟨b, hb, t, ((henum _ _ t).mp ht).2.2, hP.1, hP.2⟩
      · rintro (h | ⟨b, hb, t, hOt, h1, h2⟩)
        · exact absurd h hev
        · have hmo := getMaxAlertOffset_nonneg alerts
          have hbo := offset_le_getMaxAlertOffset hb
          have hbn := hoffnn b hb
          refine ⟨mkOccurrence (truncateDaySec date + daySec + getMaxAlertOffset alerts)
            t b, ?_, ?_⟩
          · refine mem_occurrencesWithin.mpr ⟨t, ?_, b, hb, ?_, ?_, rfl⟩
            · rw [henum]
              refine ⟨by omega, by omega, hOt⟩
            · omega
            · omega
          · exact decide_eq_true_iff.mpr ⟨h1, h2⟩

/-- Witness for the amended `OccursOn` theorem: an event at instant 90000 with
a one-day alert fires the alert at instant 3600, strictly inside day 0, so
`OccursOn(day 0)` is true. -/
theorem occursOn_iff_alert_in_open_day_witness :
    occursOn false dayAlerts dayEnumInside 0 = true := by
  have h := occursOn_iff_alert_in_open_day false dayAlerts dayEnumInside
    (fun t => t = 90000) 0 (singletonEnum_spec 90000) (by decide)
  exact h.mpr (Or.inr ⟨dayAlert, List.mem_singleton.mpr rfl, 90000, rfl, by decide, by decide⟩)

/-- With a zero-valued timed catch-up duration the cutoff test is always
false: `ToDuration` rejects the non-positive value, so the limit branch is
skipped. -/
theorem missedCut_eq_false_of_toDuration_none (cfg : WakeupHandlingConfig)
    (hdur : durationConfigToDuration cfg.maxCatchupTime = none) (x : Int) :
    missedCut cfg x = false := by
  unfold missedCut
  rw [hdur]
  split
  · rfl
  · rfl

/-- A catch-up loop whose cutoff never fires is the unbounded replay. -/
theorem missedLoop_eq_unbounded (dirConfigs : List DirectoryConfig)
    (cfg : WakeupHandlingConfig) (elapsed : Nat → Int)
    (hdur : durationConfigToDuration cfg.maxCatchupTime = none) :
    ∀ (lastTick now missedStart missedEnd : Int) (i : Nat) (evs : List SchedEvent),
      missedLoop dirConfigs cfg elapsed lastTick now missedStart missedEnd i evs =
        missedLoopUnbounded dirConfigs lastTick now missedStart missedEnd evs := by
  intro lastTick now missedStart missedEnd i evs
  induction evs generalizing i with
  | nil => rfl
  | cons ev rest ih =>
    rw [missedLoop, missedLoopUnbounded,
      missedCut_eq_false_of_toDuration_none cfg hdur (elapsed i)]
    rw [if_neg (by simp)]
    rw [ih (i + 1)]

/-- C6 counterexample: with `max_catchup_time` the zero timed duration, one
event with one missed occurrence (instant 1000) in the replay window (0, 2000]
and one offset-0 alert, `CheckMissedAlerts` emits that missed alert request —
not zero requests — even though the elapsed-time reading is positive at every
iteration: `ToDuration` errors on the zero value and the cutoff is skipped. -/
theorem checkMissedAlerts_zero_catchup_emits :
    checkMissedAlerts [cuEvent] cuDirs cuCfgZero (fun _ => 1) 0 2000 2000 =
      [{ event := cuInfo, alertOffset := 0, template := "tpl" }] ∧
    checkMissedAlerts [cuEvent] cuDirs cuCfgZero (fun _ => 1) 0 2000 2000 ≠ [] := by
  constructor
  · decide
  · decide

/-- C6 amended: when `max_catchup_time` is a timed duration with value 0, the
wall-time cutoff is disabled rather than immediate — `ToDuration` fails on the
non-positive value, so `CheckMissedAlerts` iterates over every missed event
with no time bound: its output equals the unbounded replay, whatever the
elapsed-time readings. -/
theorem checkMissedAlerts_zero_catchup_unbounded
    (events : List SchedEvent) (dirConfigs : List DirectoryConfig)
    (cfg : WakeupHandlingConfig) (elapsed : Nat → Int)
    (lastTick currentTime now : Int)
    (htype : cfg.maxCatchupTime.type = "timed")
    (hzero : cfg.maxCatchupTime.value = 0) :
    checkMissedAlerts events dirConfigs cfg elapsed lastTick currentTime now =
      checkMissedAlertsUnbounded events dirConfigs cfg lastTick currentTime now := by
  have hdur : durationConfigToDuration cfg.maxCatchupTime = none := by
    unfold durationConfigToDuration
    rw [if_neg (by rw [htype]; decide), if_pos (by omega)]
  unfold checkMissedAlerts checkMissedAlertsUnbounded
  simp only [missedLoop_eq_unbounded dirConfigs cfg elapsed hdur]

/-- Witness for the amended catch-up theorem at the concrete zero-duration
configuration. -/
theorem checkMissedAlerts_zero_catchup_unbounded_witness :
    cuCfgZero.maxCatchupTime.type = "timed" ∧ cuCfgZero.maxCatchupTime.value = 0 ∧
    checkMissedAlerts [cuEvent] cuDirs cuCfgZero (fun _ => 1) 0 2000 2000 =
      checkMissedAlertsUnbounded [cuEvent] cuDirs cuCfgZero 0 2000 2000 :=
  ⟨rfl, rfl, checkMissedAlerts_zero_catchup_unbounded [cuEvent] cuDirs cuCfgZero
    (fun _ => 1) 0 2000 2000 rfl rfl⟩

/-- C8 counterexample: an all-day event whose summary contains the critical
keyword `urgent` is classified `low`, not `critical` — the all-day rule is
applied after the keyword rule and lowers any priority above low. -/
theorem classifyEvent_urgent_allday_low :
    containsCriticalKeywords urgentAllDay = true ∧
    classifyEvent 999 urgentAllDay = EventPriority.low ∧
    classifyEvent 999 urgentAllDay ≠ EventPriority.critical := by
  refine ⟨by decide, by decide, by decide⟩

/-- C8 amended: every event whose summary or description contains a critical
keyword and that is not an all-day event classifies as `critical`; the
critical-keyword rule takes precedence over the boost rules, but the
(last-applied) all-day rule overrides it, so the non-all-day hypothesis is
required. -/
theorem classifyEvent_critical_keyword_not_allday (now : Int) (e : EventInfo)
    (hcrit : containsCriticalKeywords e = true)
    (hnall : isAllDayEvent e = false) :
    classifyEvent now e = EventPriority.critical := by
  simp [classifyEvent, hcrit, hnall, EventPriority.toNat]

/-- Witness for the amended classifier theorem: a timed `urgent` event. -/
theorem classifyEvent_critical_keyword_not_allday_witness :
    containsCriticalKeywords urgentTimed = true ∧
    isAllDayEvent urgentTimed = false ∧
    classifyEvent 0 urgentTimed = EventPriority.critical :=
  ⟨by decide, by decide,
    classifyEvent_critical_keyword_not_allday 0 urgentTimed (by decide) (by decide)⟩

end CalWatch
